import Mathlib

/-!
A shallow embedding of `stockmarket.py` (class `StockMarket`) and proofs of
its specification's claims.  Python floats are idealised as exact rationals
(`ℚ`); Python exceptions become an explicit error type carried by `Except`.
Timestamps are epoch seconds (`ℚ`), and the wall-clock `now` that Python reads
via `datetime.datetime.now()` is passed explicitly to the operations that use
it (`record_trade`, `calculate_vws_price`, `calculate_gbce`).
-/

namespace StockMkt

/-- The failure modes of the Python methods.  Each constructor corresponds to
one `raise` site (or built-in exception) in `stockmarket.py`:
`unknownSymbol` = `ValueError("Symbol does not exist in stock exchange")`;
`invalidOrder` = `ValueError("Order should be either 'Sell' or 'Buy'")`;
`invalidNumericFormat` = the `ValueError` raised by `float(value)` on an
unparseable string; `invalidPrice` = `ValueError("Price is invalid")`;
`divisionByZero` = `ValueError("Cannot divide by zero")` in the P/E method;
`noTradesInWindow` = `ValueError("No result - because total traded quantity is 0")`;
`noTrades` = the `ZeroDivisionError` produced by `1/len(self.trades.keys())`
in `calculate_gbce` when no trade was ever recorded; `typeErr` = the
`TypeError` Python would raise multiplying `None` (a missing
`fixed_dividend`) by a number. -/
inductive Err where
  | unknownSymbol
  | invalidOrder
  | invalidNumericFormat
  | invalidPrice
  | divisionByZero
  | noTradesInWindow
  | noTrades
  | typeErr
deriving DecidableEq, Repr

/-- The `"type"` field of an `exchange_data` entry. -/
inductive StockType where
  | Common
  | Preferred
deriving DecidableEq, Repr

/-- One entry of the `exchange_data` dictionary (lines 48-80 of the source). -/
structure Security where
  type : StockType
  last_dividend : ℚ
  fixed_dividend : Option ℚ
  par_value : ℚ
deriving DecidableEq, Repr

/-- The fixed `exchange_data` catalog seeded by `__init__`, as an ordered
association list (Python dicts preserve insertion order). -/
def exchange_data : List (String × Security) :=
  [ ("TEA", ⟨.Common, 0, none, 100⟩)
  , ("POP", ⟨.Common, 8, none, 100⟩)
  , ("ALE", ⟨.Common, 23, none, 60⟩)
  , ("GIN", ⟨.Preferred, 8, some 2, 100⟩)
  , ("JOE", ⟨.Common, 13, none, 250⟩) ]

/-- One `trade_data` dictionary built by `record_trade` (lines 207-212):
timestamp (epoch seconds), order ("Buy"/"Sell"), quantity, traded price. -/
structure Trade where
  timestamp : ℚ
  order : String
  quantity : ℚ
  traded_price : ℚ
deriving DecidableEq, Repr

/-- The mutable state of a `StockMarket` instance: the `trades` dictionary,
mapping a symbol to its list of trades, as an insertion-ordered association
list (`__init__` starts it empty; `exchange_data` is immutable and therefore
kept outside the state as the constant above). -/
structure StockMarket where
  trades : List (String × List Trade)
deriving DecidableEq, Repr

/-- A value accepted where Python takes `int | float | str`: either a number
or a decimal string still to be parsed. -/
inductive NumIn where
  | num (q : ℚ)
  | str (s : String)
deriving DecidableEq, Repr

/-- Reads an unsigned digit run as a natural number (helper for the model of
Python `float`). -/
def digitsToNat (cs : List Char) : ℕ :=
  cs.foldl (fun a c => 10 * a + (c.toNat - 48)) 0

/-- Models Python `float(value)` on a plain decimal literal: optional sign,
integer digits, optional `.` and fractional digits, at least one digit in
total.  Exponent forms, `inf`/`nan`, surrounding whitespace and underscore
separators are outside this model.  Returns `none` when the string is not
parseable, which is where Python `float` raises `ValueError`. -/
def parseDecimal (s : String) : Option ℚ :=
  let cs := s.toList
  let body := if cs.head? = some '-' ∨ cs.head? = some '+' then cs.tail else cs
  let sign : ℚ := if cs.head? = some '-' then -1 else 1
  let intPart := body.takeWhile (fun c => c.isDigit)
  let rest := body.dropWhile (fun c => c.isDigit)
  if rest = [] then
    if intPart = [] then none
    else some (sign * (digitsToNat intPart : ℚ))
  else if rest.head? = some '.' ∧ rest.tail.all (fun c => c.isDigit) = true ∧
      ¬(intPart = [] ∧ rest.tail = []) then
    some (sign *
      ((digitsToNat intPart : ℚ) + (digitsToNat rest.tail : ℚ) / (10 : ℚ) ^ rest.tail.length))
  else none

instance exceptDecEq {ε α : Type} [DecidableEq ε] [DecidableEq α] :
    DecidableEq (Except ε α) := fun a b =>
  match a, b with
  | .ok x, .ok y => decidable_of_iff (x = y) (by simp)
  | .error x, .error y => decidable_of_iff (x = y) (by simp)
  | .ok _, .error _ => isFalse (by simp)
  | .error _, .ok _ => isFalse (by simp)

/-- Embeds `validate_stock_symbol` (lines 85-102): a symbol absent from the
keys of `exchange_data` raises, otherwise it is returned unchanged. -/
def validate_stock_symbol (symbol : String) : Except Err String :=
  if symbol ∉ exchange_data.map Prod.fst then .error .unknownSymbol
  else .ok symbol

/-- Embeds `str_to_float` (lines 104-118): strings are converted with
`float(...)` (modelled by `parseDecimal`), everything else passes through. -/
def str_to_float (value : NumIn) : Except Err ℚ :=
  match value with
  | .str s =>
    match parseDecimal s with
    | some q => .ok q
    | none => .error .invalidNumericFormat
  | .num q => .ok q

/-- Embeds `validate_order` (lines 120-135): only the exact strings `"Buy"`
and `"Sell"` are accepted. -/
def validate_order (order : String) : Except Err String :=
  if order ≠ "Buy" ∧ order ≠ "Sell" then .error .invalidOrder
  else .ok order

/-- Embeds `calculate_dividend_yield` (lines 137-160): validate the symbol,
coerce the price, reject a non-positive price, then return
`last_dividend / price` for a Common stock and
`fixed_dividend * par_value / price` for a Preferred one. -/
def calculate_dividend_yield (symbol : String) (price : NumIn) : Except Err ℚ := do
  let symbol ← validate_stock_symbol symbol
  let price ← str_to_float price
  match exchange_data.lookup symbol with
  | none => .error .unknownSymbol
  | some stock =>
    if price ≤ 0 then .error .invalidPrice
    else
      match stock.type with
      | .Common => .ok (stock.last_dividend / price)
      | .Preferred =>
        match stock.fixed_dividend with
        | some fd => .ok (fd * stock.par_value / price)
        | none => .error .typeErr

/-- Embeds `calculate_pe_ratio` (lines 162-185): validate the symbol, coerce
the price, compute the dividend yield, raise on a zero yield, otherwise
return `price / dividend`. -/
def calculate_pe (symbol : String) (price : NumIn) : Except Err ℚ := do
  let symbol ← validate_stock_symbol symbol
  let p ← str_to_float price
  let dividend ← calculate_dividend_yield symbol (.num p)
  if dividend = 0 then .error .divisionByZero
  else .ok (p / dividend)

/-- The dictionary update of `record_trade` (lines 214-217): create a
one-element list for a fresh symbol, otherwise append to the existing list
(first matching key, as in a Python dict). -/
def addTrade (trades : List (String × List Trade)) (symbol : String) (td : Trade) :
    List (String × List Trade) :=
  match trades with
  | [] => [(symbol, [td])]
  | (k, ts) :: rest =>
    if k == symbol then (k, ts ++ [td]) :: rest
    else (k, ts) :: addTrade rest symbol td

/-- Embeds `record_trade` (lines 187-219): validate the symbol, coerce
quantity and price, validate the order, build the `trade_data` record
stamped with `now`, store it, and return it (together with the updated
state, which in Python is the mutated `self.trades`). -/
def record_trade (now : ℚ) (s : StockMarket) (symbol : String)
    (quantity price : NumIn) (order : String) : Except Err (Trade × StockMarket) := do
  let symbol ← validate_stock_symbol symbol
  let q ← str_to_float quantity
  let p ← str_to_float price
  let o ← validate_order order
  let td : Trade := ⟨now, if o = "Buy" then "Buy" else "Sell", q, p⟩
  .ok (td, ⟨addTrade s.trades symbol td⟩)

/-- The state after a `record_trade` call under Python exception semantics:
on success the mutated store, on a raised error the unchanged one (all
validations in the source precede the dictionary mutation). -/
def runRecord (now : ℚ) (s : StockMarket) (symbol : String)
    (quantity price : NumIn) (order : String) : StockMarket :=
  match record_trade now s symbol quantity price order with
  | .ok x => x.2
  | .error _ => s

/-- Embeds `calculate_vws_price` (lines 222-251): validate the symbol; when
the symbol has a trade list, run the loop accumulating
`traded_price * quantity` and `quantity` over trades with
`timestamp >= now - 300` (5 minutes), raise when the accumulated quantity is
0, and otherwise return amount / quantity; when the symbol has no trade list
return 0. -/
def calculate_vws_price (now : ℚ) (s : StockMarket) (symbol : String) : Except Err ℚ := do
  let symbol ← validate_stock_symbol symbol
  let t0 := now - 300
  match s.trades.lookup symbol with
  | some ts =>
    let acc := ts.foldl
      (fun (a : ℚ × ℚ) tr =>
        if t0 ≤ tr.timestamp then (a.1 + tr.traded_price * tr.quantity, a.2 + tr.quantity)
        else a)
      (0, 0)
    if acc.2 = 0 then .error .noTradesInWindow
    else .ok (acc.1 / acc.2)
  | none => .ok 0

/-- The loop of `calculate_gbce` (lines 262-264): multiply the volume
weighted prices of the symbols of the trade store into the accumulator,
propagating the first error raised by `calculate_vws_price`. -/
def gbce_loop (now : ℚ) (s : StockMarket) :
    List (String × List Trade) → ℚ → Except Err ℚ
  | [], total => .ok total
  | kv :: rest, total =>
    match calculate_vws_price now s kv.1 with
    | .error e => .error e
    | .ok u => gbce_loop now s rest (total * u)

/-- Embeds `calculate_gbce` (lines 253-266) up to the floating-point step:
it runs the product loop over the traded symbols and yields the exact
product together with the count of traded symbols, the two inputs of the
final `total ** (1/len)`.  An empty trade store makes `1/len(...)` a
division by zero (`Err.noTrades`), exactly as in the source. -/
def calculate_gbce_core (now : ℚ) (s : StockMarket) : Except Err (ℚ × ℕ) :=
  match gbce_loop now s s.trades 1 with
  | .error e => .error e
  | .ok total =>
    if s.trades.isEmpty then .error .noTrades
    else .ok (total, s.trades.length)

/-- Round-half-to-even of a rational to an integer (the tie-break of Python's
`round`). -/
def rheInt (q : ℚ) : ℤ :=
  if q - ⌊q⌋ < 1/2 then ⌊q⌋
  else if 1/2 < q - ⌊q⌋ then ⌊q⌋ + 1
  else if ⌊q⌋ % 2 = 0 then ⌊q⌋ else ⌊q⌋ + 1

/-- `round(x, 3)` idealised on rationals: round half to even at the third
decimal place. -/
def roundHalfEven3 (q : ℚ) : ℚ :=
  (rheInt (q * 1000) : ℚ) / 1000

/-- The trades of a list falling in the trailing window starting at `t0`
(the specification-level view of the loop filter in `calculate_vws_price`). -/
def windowTrades (t0 : ℚ) (ts : List Trade) : List Trade :=
  ts.filter (fun tr => decide (t0 ≤ tr.timestamp))

/-- Sum of the quantities of the in-window trades. -/
def windowQty (t0 : ℚ) (ts : List Trade) : ℚ :=
  ((windowTrades t0 ts).map (fun tr => tr.quantity)).sum

/-- Sum of price times quantity over the in-window trades. -/
def windowAmount (t0 : ℚ) (ts : List Trade) : ℚ :=
  ((windowTrades t0 ts).map (fun tr => tr.traded_price * tr.quantity)).sum

/-- The store invariant: every symbol present in the trade dictionary owns a
non-empty trade list. -/
def TradesWF (s : StockMarket) : Prop :=
  ∀ kv ∈ s.trades, kv.2 ≠ []

/-- A sample trade: 10 units of POP at price 100, recorded at time 1000. -/
def td0 : Trade := ⟨1000, "Buy", 10, 100⟩

/-- A store holding only the sample trade `td0`. -/
def mkt1 : StockMarket := ⟨[("POP", [td0])]⟩

/-- A trade recorded 6 minutes (360 s) before time 1000. -/
def tdOld : Trade := ⟨640, "Buy", 10, 100⟩

/-- A store whose only trade is stale at time 1000. -/
def mktOld : StockMarket := ⟨[("POP", [tdOld])]⟩

/-- A trade of quantity 0 recorded at time 1000 (accepted by `record_trade`,
whose coercion does not check positivity). -/
def tdZero : Trade := ⟨1000, "Buy", 0, 100⟩

/-- A store whose only trade is the in-window, quantity-0 trade `tdZero`. -/
def mktZero : StockMarket := ⟨[("POP", [tdZero])]⟩

section Lemmas

theorem lookup_mem {α β : Type} [BEq α] [LawfulBEq α] {l : List (α × β)} {k : α} {v : β}
    (h : l.lookup k = some v) : (k, v) ∈ l := by
  induction l with
  | nil => simp [List.lookup] at h
  | cons kv rest ih =>
    obtain ⟨k1, b⟩ := kv
    by_cases heq : k = k1
    · subst heq
      simp [List.lookup] at h
      subst h
      exact List.mem_cons_self _ _
    · have hb : (k == k1) = false := beq_eq_false_iff_ne.mpr heq
      simp [List.lookup, hb] at h
      exact List.mem_cons_of_mem _ (ih h)

theorem lookup_isSome_iff_mem_keys {α β : Type} [BEq α] [LawfulBEq α]
    {l : List (α × β)} {k : α} :
    (l.lookup k).isSome ↔ k ∈ l.map Prod.fst := by
  induction l with
  | nil => simp [List.lookup]
  | cons kv rest ih =>
    obtain ⟨k1, b⟩ := kv
    by_cases heq : k = k1
    · subst heq
      simp [List.lookup]
    · have hb : (k == k1) = false := beq_eq_false_iff_ne.mpr heq
      simp [List.lookup, hb, ih, heq]

theorem exchange_keys :
    exchange_data.map Prod.fst = ["TEA", "POP", "ALE", "GIN", "JOE"] := rfl

theorem validate_ok_of_mem {sym : String} (h : sym ∈ exchange_data.map Prod.fst) :
    validate_stock_symbol sym = .ok sym := by
  simp [validate_stock_symbol, h]

theorem validate_error_of_not_mem {sym : String} (h : sym ∉ exchange_data.map Prod.fst) :
    validate_stock_symbol sym = .error .unknownSymbol := by
  simp [validate_stock_symbol, h]

theorem validate_ok_eq {sym x : String} (h : validate_stock_symbol sym = .ok x) :
    x = sym ∧ sym ∈ exchange_data.map Prod.fst := by
  unfold validate_stock_symbol at h
  split at h
  · exact absurd h (by simp)
  · next hmem =>
    refine ⟨by injection h with h2; exact h2.symm, by simpa using hmem⟩

theorem validate_order_ok_eq {o x : String} (h : validate_order o = .ok x) :
    x = o := by
  unfold validate_order at h
  split at h
  · exact absurd h (by simp)
  · injection h with h2
    exact h2.symm

@[simp]
theorem exceptBind_ok {α β : Type} (a : α) (f : α → Except Err β) :
    (Except.ok a : Except Err α) >>= f = f a := rfl

@[simp]
theorem exceptBind_error {α β : Type} (e : Err) (f : α → Except Err β) :
    (Except.error e : Except Err α) >>= f = .error e := rfl

theorem vws_foldl (t0 : ℚ) (ts : List Trade) (a b : ℚ) :
    ts.foldl
      (fun (x : ℚ × ℚ) tr =>
        if t0 ≤ tr.timestamp then (x.1 + tr.traded_price * tr.quantity, x.2 + tr.quantity)
        else x)
      (a, b) = (a + windowAmount t0 ts, b + windowQty t0 ts) := by
  induction ts generalizing a b with
  | nil => simp [windowAmount, windowQty, windowTrades]
  | cons tr ts ih =>
    by_cases h : t0 ≤ tr.timestamp
    · rw [List.foldl_cons, if_pos h, ih]
      unfold windowAmount windowQty windowTrades
      simp [h]
      constructor <;> ring
    · rw [List.foldl_cons, if_neg h, ih]
      unfold windowAmount windowQty windowTrades
      simp [h]

theorem addTrade_lookup_self (l : List (String × List Trade)) (sym : String) (td : Trade) :
    (addTrade l sym td).lookup sym = some (((l.lookup sym).getD []) ++ [td]) := by
  induction l with
  | nil => simp [addTrade, List.lookup]
  | cons kv rest ih =>
    obtain ⟨k, ts⟩ := kv
    by_cases h : k = sym
    · subst h
      simp [addTrade, List.lookup]
    · have hb : (k == sym) = false := beq_eq_false_iff_ne.mpr h
      have hb2 : (sym == k) = false := beq_eq_false_iff_ne.mpr (Ne.symm h)
      simp [addTrade, List.lookup, hb, hb2, ih]

theorem addTrade_lookup_other (l : List (String × List Trade)) (sym k2 : String)
    (td : Trade) (h : k2 ≠ sym) :
    (addTrade l sym td).lookup k2 = l.lookup k2 := by
  induction l with
  | nil =>
    have hb : (k2 == sym) = false := beq_eq_false_iff_ne.mpr h
    simp [addTrade, List.lookup, hb]
  | cons kv rest ih =>
    obtain ⟨k, ts⟩ := kv
    by_cases hk : k = sym
    · subst hk
      have hb : (k2 == k) = false := beq_eq_false_iff_ne.mpr h
      simp [addTrade, List.lookup, hb]
    · have hb : (k == sym) = false := beq_eq_false_iff_ne.mpr hk
      by_cases hk2 : k2 = k
      · subst hk2
        simp [addTrade, List.lookup, hb]
      · have hb2 : (k2 == k) = false := beq_eq_false_iff_ne.mpr hk2
        simp [addTrade, List.lookup, hb, hb2, ih]

theorem addTrade_keys_mem (l : List (String × List Trade)) (sym : String) (td : Trade)
    (h : sym ∈ l.map Prod.fst) :
    (addTrade l sym td).map Prod.fst = l.map Prod.fst := by
  induction l with
  | nil => simp at h
  | cons kv rest ih =>
    obtain ⟨k, ts⟩ := kv
    by_cases hk : k = sym
    · subst hk
      simp [addTrade]
    · have hb : (k == sym) = false := beq_eq_false_iff_ne.mpr hk
      have h2 : sym ∈ rest.map Prod.fst := by
        simp at h
        rcases h with h | h
        · exact absurd h.symm hk
        · simpa using h
      simp [addTrade, hb, ih h2]

theorem addTrade_keys_new (l : List (String × List Trade)) (sym : String) (td : Trade)
    (h : sym ∉ l.map Prod.fst) :
    (addTrade l sym td).map Prod.fst = l.map Prod.fst ++ [sym] := by
  induction l with
  | nil => simp [addTrade]
  | cons kv rest ih =>
    obtain ⟨k, ts⟩ := kv
    have hk : k ≠ sym := by
      intro hk
      exact h (by simp [hk])
    have hb : (k == sym) = false := beq_eq_false_iff_ne.mpr hk
    have h2 : sym ∉ rest.map Prod.fst := by
      intro hmem
      exact h (by simp [hmem])
    simp [addTrade, hb, ih h2]

theorem addTrade_wf (l : List (String × List Trade)) (sym : String) (td : Trade)
    (h : ∀ kv ∈ l, kv.2 ≠ []) :
    ∀ kv ∈ addTrade l sym td, kv.2 ≠ [] := by
  induction l with
  | nil =>
    intro kv hkv
    simp [addTrade] at hkv
    subst hkv
    simp
  | cons kv0 rest ih =>
    obtain ⟨k, ts⟩ := kv0
    intro kv hkv
    by_cases hk : k == sym
    · simp [addTrade, hk] at hkv
      rcases hkv with hkv | hkv
      · subst hkv
        simp
      · exact h kv (List.mem_cons_of_mem _ hkv)
    · simp [addTrade, hk] at hkv
      rcases hkv with hkv | hkv
      · subst hkv
        exact h _ (List.mem_cons_self _ _)
      · exact ih (fun x hx => h x (List.mem_cons_of_mem _ hx)) kv hkv

theorem gbce_loop_ok (now : ℚ) (s : StockMarket) (v : String → ℚ)
    (l : List (String × List Trade))
    (hv : ∀ kv ∈ l, calculate_vws_price now s kv.1 = .ok (v kv.1)) (total : ℚ) :
    gbce_loop now s l total = .ok (total * (l.map (fun kv => v kv.1)).prod) := by
  induction l generalizing total with
  | nil => simp [gbce_loop]
  | cons kv rest ih =>
    have h1 := hv kv (List.mem_cons_self _ _)
    have h2 := ih (fun x hx => hv x (List.mem_cons_of_mem _ hx))
    simp [gbce_loop, h1, h2, mul_assoc]

theorem dy_ok_validate {sym : String} {p : NumIn} {y : ℚ}
    (h : calculate_dividend_yield sym p = .ok y) :
    validate_stock_symbol sym = .ok sym := by
  unfold calculate_dividend_yield at h
  cases hv : validate_stock_symbol sym with
  | error e =>
    rw [hv] at h
    simp at h
  | ok x =>
    obtain ⟨hx, _⟩ := validate_ok_eq hv
    subst hx
    rfl

theorem record_trade_ok_inv {now : ℚ} {s : StockMarket} {sym : String}
    {q p : NumIn} {o : String} {td : Trade} {s2 : StockMarket}
    (h : record_trade now s sym q p o = .ok (td, s2)) :
    s2.trades = addTrade s.trades sym td := by
  unfold record_trade at h
  cases hval : validate_stock_symbol sym with
  | error e =>
    rw [hval] at h
    simp at h
  | ok w =>
    obtain ⟨hw, _⟩ := validate_ok_eq hval
    subst hw
    rw [hval] at h
    simp only [exceptBind_ok] at h
    cases hq : str_to_float q with
    | error e =>
      rw [hq] at h
      simp at h
    | ok qv =>
      rw [hq] at h
      simp only [exceptBind_ok] at h
      cases hp2 : str_to_float p with
      | error e =>
        rw [hp2] at h
        simp at h
      | ok pv =>
        rw [hp2] at h
        simp only [exceptBind_ok] at h
        cases ho : validate_order o with
        | error e =>
          rw [ho] at h
          simp at h
        | ok ov =>
          rw [ho] at h
          simp only [exceptBind_ok] at h
          obtain ⟨h1, h2⟩ :
              (⟨now, if ov = "Buy" then "Buy" else "Sell", qv, pv⟩ : Trade) = td ∧
              StockMarket.mk
                (addTrade s.trades w ⟨now, if ov = "Buy" then "Buy" else "Sell", qv, pv⟩) =
                s2 := by
            simpa [Prod.ext_iff] using h
          subst h1
          rw [← h2]

end Lemmas

section Claims

/-- C7: every symbol outside {TEA, POP, ALE, GIN, JOE} makes each
symbol-taking operation fail with `UnknownSymbol`, and a catalog symbol is
returned unchanged by `validate_stock_symbol`. -/
theorem unknown_symbol_all_ops (now : ℚ) (s : StockMarket) (sym : String)
    (q p : NumIn) (o : String) :
    (sym ∉ (["TEA", "POP", "ALE", "GIN", "JOE"] : List String) →
      validate_stock_symbol sym = .error .unknownSymbol ∧
      calculate_dividend_yield sym p = .error .unknownSymbol ∧
      calculate_pe sym p = .error .unknownSymbol ∧
      record_trade now s sym q p o = .error .unknownSymbol ∧
      calculate_vws_price now s sym = .error .unknownSymbol) ∧
    (sym ∈ (["TEA", "POP", "ALE", "GIN", "JOE"] : List String) →
      validate_stock_symbol sym = .ok sym) := by
  constructor
  · intro h
    have hmem : sym ∉ exchange_data.map Prod.fst := by
      rw [exchange_keys]
      exact h
    have hv := validate_error_of_not_mem hmem
    exact ⟨hv, by simp [calculate_dividend_yield, hv], by simp [calculate_pe, hv],
      by simp [record_trade, hv], by simp [calculate_vws_price, hv]⟩
  · intro h
    exact validate_ok_of_mem (by rw [exchange_keys]; exact h)

/-- Witness for C7 at the concrete symbols "XXX" (unknown) and "TEA". -/
theorem unknown_symbol_all_ops_witness :
    validate_stock_symbol "XXX" = .error .unknownSymbol ∧
    calculate_dividend_yield "XXX" (.num 1) = .error .unknownSymbol ∧
    calculate_vws_price 1000 mkt1 "XXX" = .error .unknownSymbol ∧
    validate_stock_symbol "TEA" = .ok "TEA" := by
  have h1 := unknown_symbol_all_ops 1000 mkt1 "XXX" (.num 1) (.num 1) "Buy"
  have h2 := unknown_symbol_all_ops 1000 mkt1 "TEA" (.num 1) (.num 1) "Buy"
  have hx := h1.1 (by decide)
  exact ⟨hx.1, hx.2.1, hx.2.2.2.2, h2.2 (by decide)⟩

/-- C3: for a catalog symbol and a numeric price, the dividend yield fails
with `InvalidPrice` exactly when the price is non-positive; for a positive
price it returns `last_dividend / price` on a Common stock and
`fixed_dividend * par_value / price` (raw stored `fixed_dividend`) on a
Preferred one, with no rounding. -/
theorem dividend_yield_spec (sym : String) (sec : Security) (price : ℚ)
    (h : exchange_data.lookup sym = some sec) :
    (calculate_dividend_yield sym (.num price) = .error .invalidPrice ↔ price ≤ 0) ∧
    (0 < price → sec.type = .Common →
      calculate_dividend_yield sym (.num price) = .ok (sec.last_dividend / price)) ∧
    (0 < price → ∀ fd, sec.type = .Preferred → sec.fixed_dividend = some fd →
      calculate_dividend_yield sym (.num price) = .ok (fd * sec.par_value / price)) := by
  have hmem : sym ∈ exchange_data.map Prod.fst :=
    lookup_isSome_iff_mem_keys.mp (by rw [h]; rfl)
  have hval := validate_ok_of_mem hmem
  refine ⟨⟨?_, ?_⟩, ?_, ?_⟩
  · intro he
    by_contra hp
    push_neg at hp
    have hnle := not_le.mpr hp
    rcases htype : sec.type with _ | _
    · simp [calculate_dividend_yield, hval, str_to_float, h, hnle, htype] at he
    · rcases hfd : sec.fixed_dividend with _ | fd <;>
        simp [calculate_dividend_yield, hval, str_to_float, h, hnle, htype, hfd] at he
  · intro hp
    simp [calculate_dividend_yield, hval, str_to_float, h, hp]
  · intro hp ht
    have hnle := not_le.mpr hp
    simp [calculate_dividend_yield, hval, str_to_float, h, hnle, ht]
  · intro hp fd ht hfd
    have hnle := not_le.mpr hp
    simp [calculate_dividend_yield, hval, str_to_float, h, hnle, ht, hfd]

/-- Witness for C3 at GIN (Preferred) with price 4: yield 2 * 100 / 4 = 50. -/
theorem dividend_yield_spec_witness :
    calculate_dividend_yield "GIN" (.num 4) = .ok 50 := by
  have h := dividend_yield_spec "GIN" ⟨.Preferred, 8, some 2, 100⟩ 4 (by rfl)
  have h2 := h.2.2 (by norm_num) 2 rfl rfl
  rw [show ((50 : ℚ)) = 2 * 100 / 4 by norm_num]
  exact h2

/-- C4: for a catalog symbol and positive numeric price whose dividend yield
is `y`, the P/E computation fails with `DivisionByZero` exactly when `y = 0`,
and returns `price / y` otherwise. -/
theorem pe_spec (sym : String) (price : ℚ) (y : ℚ)
    (_hp : 0 < price)
    (hy : calculate_dividend_yield sym (.num price) = .ok y) :
    (calculate_pe sym (.num price) = .error .divisionByZero ↔ y = 0) ∧
    (y ≠ 0 → calculate_pe sym (.num price) = .ok (price / y)) := by
  have hval := dy_ok_validate hy
  have hred : calculate_pe sym (.num price) =
      (if y = 0 then .error .divisionByZero else .ok (price / y)) := by
    simp [calculate_pe, hval, str_to_float, hy]
  refine ⟨?_, ?_⟩
  · rw [hred]
    by_cases h0 : y = 0 <;> simp [h0]
  · intro h0
    rw [hred, if_neg h0]

/-- Witness for C4 at TEA with price 10: the yield is 0, so the P/E
computation fails with `DivisionByZero`. -/
theorem pe_spec_witness :
    (calculate_pe "TEA" (.num 10) = .error .divisionByZero ↔ (0 : ℚ) = 0) ∧
    ((0 : ℚ) ≠ 0 → calculate_pe "TEA" (.num 10) = .ok (10 / 0)) :=
  pe_spec "TEA" 10 0 (by norm_num)
    (by norm_num [calculate_dividend_yield, validate_stock_symbol, str_to_float,
      exchange_data, List.lookup])

/-- C1 counterexample: the quantity-0 trade `tdZero` is inside the trailing
5-minute window of `now = 1000` and POP owns a trade list, yet
`calculate_vws_price` raises `NoTradesInWindow` instead of returning the
windowed ratio. -/
theorem vws_window_qty0_cex :
    calculate_vws_price 1000 mktZero "POP" = .error .noTradesInWindow ∧
    (1000 : ℚ) - 300 ≤ tdZero.timestamp ∧
    mktZero.trades.lookup "POP" = some [tdZero] ∧
    calculate_vws_price 1000 mktZero "POP" ≠
      .ok ((([tdZero].map (fun tr => tr.traded_price * tr.quantity)).sum) /
        (([tdZero].map (fun tr => tr.quantity)).sum)) := by
  have h1 : calculate_vws_price 1000 mktZero "POP" = .error .noTradesInWindow := by
    norm_num [calculate_vws_price, validate_stock_symbol, exchange_data, mktZero, tdZero,
      List.lookup]
  refine ⟨h1, by norm_num [tdZero], by decide, ?_⟩
  rw [h1]
  simp

/-- C1 (amended): for a catalog symbol owning a trade list whose in-window
quantities sum to a nonzero value, `calculate_vws_price` returns the sum of
price times quantity over exactly the in-window trades divided by the sum of
their quantities; older trades contribute to neither sum. -/
theorem vws_window_sum (now : ℚ) (s : StockMarket) (sym : String) (ts : List Trade)
    (hsym : sym ∈ exchange_data.map Prod.fst)
    (hts : s.trades.lookup sym = some ts)
    (hq : windowQty (now - 300) ts ≠ 0) :
    calculate_vws_price now s sym =
      .ok (windowAmount (now - 300) ts / windowQty (now - 300) ts) := by
  have hval := validate_ok_of_mem hsym
  simp only [calculate_vws_price, hval, exceptBind_ok, hts, vws_foldl]
  simp [hq]

/-- Witness for the amended C1: one stale trade (6 minutes old) and one fresh
trade of 5 units at price 100; only the fresh trade counts, so the volume
weighted price is 100, not the all-trades average 220/3. -/
theorem vws_window_sum_witness :
    calculate_vws_price 1000 ⟨[("POP", [⟨640, "Buy", 10, 400⟩, ⟨999, "Buy", 5, 100⟩])]⟩
      "POP" = .ok 100 := by
  have h := vws_window_sum 1000 ⟨[("POP", [⟨640, "Buy", 10, 400⟩, ⟨999, "Buy", 5, 100⟩])]⟩
    "POP" [⟨640, "Buy", 10, 400⟩, ⟨999, "Buy", 5, 100⟩] (by decide) (by decide)
    (by norm_num [windowQty, windowTrades])
  rw [h]
  norm_num [windowQty, windowAmount, windowTrades]

/-- C5: for a catalog symbol, a missing trade list yields the success value 0,
while an existing trade list whose in-window quantity sums to 0 raises
`NoTradesInWindow`. -/
theorem vws_no_trades (now : ℚ) (s : StockMarket) (sym : String)
    (hsym : sym ∈ exchange_data.map Prod.fst) :
    (s.trades.lookup sym = none → calculate_vws_price now s sym = .ok 0) ∧
    (∀ ts, s.trades.lookup sym = some ts → windowQty (now - 300) ts = 0 →
      calculate_vws_price now s sym = .error .noTradesInWindow) := by
  have hval := validate_ok_of_mem hsym
  constructor
  · intro hnone
    simp [calculate_vws_price, hval, hnone]
  · intro ts hts hq
    simp only [calculate_vws_price, hval, exceptBind_ok, hts, vws_foldl]
    simp [hq]

/-- Witness for C5: a never-traded symbol returns 0; a symbol whose only
trade is 6 minutes old raises `NoTradesInWindow`. -/
theorem vws_no_trades_witness :
    calculate_vws_price 1000 (StockMarket.mk []) "TEA" = .ok 0 ∧
    calculate_vws_price 1000 mktOld "POP" = .error .noTradesInWindow := by
  have h1 := (vws_no_trades 1000 ⟨[]⟩ "TEA" (by decide)).1 (by decide)
  have h2 := (vws_no_trades 1000 mktOld "POP" (by decide)).2 [tdOld] (by decide)
    (by norm_num [windowQty, windowTrades, tdOld])
  exact ⟨h1, h2⟩

/-- C6: with an empty trade store, `calculate_gbce` fails (the source hits
`1/len(self.trades.keys())` with `len = 0`, a `ZeroDivisionError`, modelled
as `Err.noTrades`) rather than returning a number. -/
theorem gbce_empty_error (now : ℚ) (s : StockMarket) (h : s.trades = []) :
    calculate_gbce_core now s = .error .noTrades := by
  simp [calculate_gbce_core, h, gbce_loop]

/-- Witness for C6 on the freshly constructed empty store. -/
theorem gbce_empty_error_witness :
    calculate_gbce_core 1000 (StockMarket.mk []) = .error .noTrades :=
  gbce_empty_error 1000 ⟨[]⟩ rfl

/-- C2: with a non-empty trade store whose every traded symbol has a
succeeding volume-weighted price, `calculate_gbce` forms the product of the
volume-weighted prices of exactly the traded symbols together with their
count; the idealised return `product ^ (1/count)` is the non-negative
count-th root of that product; and with exactly one traded symbol the
rounded result is the rounded volume-weighted price of that symbol. -/
theorem gbce_traded_product (now : ℚ) (s : StockMarket) (v : String → ℚ)
    (hne : s.trades ≠ [])
    (hv : ∀ kv ∈ s.trades, calculate_vws_price now s kv.1 = .ok (v kv.1)) :
    calculate_gbce_core now s =
      .ok ((s.trades.map (fun kv => v kv.1)).prod, s.trades.length) ∧
    (0 ≤ ((s.trades.map (fun kv => v kv.1)).prod : ℚ) →
      ((((s.trades.map (fun kv => v kv.1)).prod : ℚ) : ℝ) ^
          ((1 : ℝ) / (s.trades.length : ℝ))) ^ (s.trades.length : ℕ) =
        (((s.trades.map (fun kv => v kv.1)).prod : ℚ) : ℝ)) ∧
    (∀ sym ts, s.trades = [(sym, ts)] →
      calculate_gbce_core now s = .ok (v sym, 1) ∧
      roundHalfEven3 ((s.trades.map (fun kv => v kv.1)).prod) =
        roundHalfEven3 (v sym)) := by
  have hF : s.trades.isEmpty = false := by
    cases hcase : s.trades
    · exact absurd hcase hne
    · rfl
  have hl := gbce_loop_ok now s v s.trades hv 1
  have hcore : calculate_gbce_core now s =
      .ok ((s.trades.map (fun kv => v kv.1)).prod, s.trades.length) := by
    simp [calculate_gbce_core, hl, hF]
  refine ⟨hcore, ?_, ?_⟩
  · intro hP
    have hn0 : s.trades.length ≠ 0 := by
      simpa [List.length_eq_zero] using hne
    have hn : (s.trades.length : ℝ) ≠ 0 := Nat.cast_ne_zero.mpr hn0
    have hPR : (0 : ℝ) ≤ (((s.trades.map (fun kv => v kv.1)).prod : ℚ) : ℝ) := by
      exact_mod_cast hP
    rw [← Real.rpow_natCast
        ((((s.trades.map (fun kv => v kv.1)).prod : ℚ) : ℝ) ^
          ((1 : ℝ) / (s.trades.length : ℝ))) s.trades.length,
      ← Real.rpow_mul hPR, one_div_mul_cancel hn, Real.rpow_one]
  · intro sym ts hsingle
    constructor
    · rw [hcore, hsingle]
      simp
    · rw [hsingle]
      simp

/-- Witness for C2 on the one-trade store `mkt1`: the product is POP's own
volume-weighted price 100 and the count is 1. -/
theorem gbce_traded_product_witness :
    calculate_gbce_core 1000 mkt1 =
      .ok ((mkt1.trades.map (fun kv => ((fun _ => (100 : ℚ)) kv.1))).prod,
        mkt1.trades.length) ∧
    (0 ≤ ((mkt1.trades.map (fun kv => ((fun _ => (100 : ℚ)) kv.1))).prod : ℚ) →
      ((((mkt1.trades.map (fun kv => ((fun _ => (100 : ℚ)) kv.1))).prod : ℚ) : ℝ) ^
          ((1 : ℝ) / (mkt1.trades.length : ℝ))) ^ (mkt1.trades.length : ℕ) =
        (((mkt1.trades.map (fun kv => ((fun _ => (100 : ℚ)) kv.1))).prod : ℚ) : ℝ)) ∧
    (∀ sym ts, mkt1.trades = [(sym, ts)] →
      calculate_gbce_core 1000 mkt1 = .ok (((fun _ => (100 : ℚ)) sym), 1) ∧
      roundHalfEven3 ((mkt1.trades.map (fun kv => ((fun _ => (100 : ℚ)) kv.1))).prod) =
        roundHalfEven3 ((fun _ => (100 : ℚ)) sym)) := by
  refine gbce_traded_product 1000 mkt1 (fun _ => 100) (by simp [mkt1]) ?_
  intro kv hkv
  have hk : kv = ("POP", [td0]) := by
    simpa [mkt1] using hkv
  subst hk
  show calculate_vws_price 1000 mkt1 "POP" = .ok 100
  norm_num [calculate_vws_price, validate_stock_symbol, exchange_data, mkt1, td0,
    List.lookup]

/-- C8: a decimal string denoting `x` behaves like the number `x` in every
numeric-input operation (the numeric branch of `str_to_float` passes values
through unchanged), and with other arguments valid an unparseable string
makes the operation fail with `InvalidNumericFormat`. -/
theorem numeric_coercion (now : ℚ) (s : StockMarket) (sym : String) (o : String)
    (x : ℚ) (str1 : String) (q2 : NumIn) :
    (parseDecimal str1 = some x →
      calculate_dividend_yield sym (.str str1) = calculate_dividend_yield sym (.num x) ∧
      calculate_pe sym (.str str1) = calculate_pe sym (.num x) ∧
      record_trade now s sym (.str str1) q2 o = record_trade now s sym (.num x) q2 o ∧
      record_trade now s sym q2 (.str str1) o = record_trade now s sym q2 (.num x) o) ∧
    (parseDecimal str1 = none → sym ∈ exchange_data.map Prod.fst →
      calculate_dividend_yield sym (.str str1) = .error .invalidNumericFormat ∧
      calculate_pe sym (.str str1) = .error .invalidNumericFormat ∧
      record_trade now s sym (.str str1) q2 o = .error .invalidNumericFormat ∧
      record_trade now s sym (.num 1) (.str str1) o = .error .invalidNumericFormat) := by
  constructor
  · intro hp
    have hs : str_to_float (.str str1) = .ok x := by
      simp [str_to_float, hp]
    have hn : str_to_float (.num x) = .ok x := rfl
    exact ⟨by simp [calculate_dividend_yield, hs, hn], by simp [calculate_pe, hs, hn],
      by simp [record_trade, hs, hn], by simp [record_trade, hs, hn]⟩
  · intro hp hmem
    have hval := validate_ok_of_mem hmem
    have hs : str_to_float (.str str1) = .error .invalidNumericFormat := by
      simp [str_to_float, hp]
    exact ⟨by simp [calculate_dividend_yield, hval, hs],
      by simp [calculate_pe, hval, hs],
      by simp [record_trade, hval, hs],
      by
        have hn1 : str_to_float (.num 1) = .ok 1 := rfl
        simp [record_trade, hval, hn1, hs]⟩

/-- Witness for C8: the string "3.5" behaves like 7/2 for POP's dividend
yield, and the unparseable string "abc" fails with `InvalidNumericFormat`. -/
theorem numeric_coercion_witness :
    calculate_dividend_yield "POP" (.str "3.5") =
      calculate_dividend_yield "POP" (.num (7 / 2)) ∧
    calculate_dividend_yield "POP" (.str "abc") = .error .invalidNumericFormat := by
  have hp : parseDecimal "3.5" = some (7 / 2) := by
    have ht : "3.5".toList = ['3', '.', '5'] := by decide
    simp [parseDecimal, digitsToNat, ht]
    norm_num
  have hn : parseDecimal "abc" = none := by decide
  have h1 := (numeric_coercion 1000 ⟨[]⟩ "POP" "Buy" (7 / 2) "3.5" (.num 1)).1 hp
  have h2 := (numeric_coercion 1000 ⟨[]⟩ "POP" "Buy" 0 "abc" (.num 1)).2 hn (by decide)
  exact ⟨h1.1, h2.1⟩

/-- C9: a successful `record_trade` appends exactly the returned trade at the
end of the symbol's list (creating the list when the symbol was absent, and
adding its key at the end of the store), leaves every other symbol's list
untouched, and a failing call leaves the store unchanged. -/
theorem record_trade_frame (now : ℚ) (s : StockMarket) (sym : String)
    (q p : NumIn) (o : String) :
    (∀ td s2, record_trade now s sym q p o = .ok (td, s2) →
      s2.trades.lookup sym = some (((s.trades.lookup sym).getD []) ++ [td]) ∧
      (∀ k, k ≠ sym → s2.trades.lookup k = s.trades.lookup k) ∧
      (s.trades.lookup sym = none →
        s2.trades.map Prod.fst = s.trades.map Prod.fst ++ [sym]) ∧
      ((s.trades.lookup sym).isSome →
        s2.trades.map Prod.fst = s.trades.map Prod.fst)) ∧
    (∀ e, record_trade now s sym q p o = .error e →
      runRecord now s sym q p o = s) := by
  constructor
  · intro td s2 h
    have hst := record_trade_ok_inv h
    refine ⟨?_, ?_, ?_, ?_⟩
    · rw [hst]
      exact addTrade_lookup_self _ _ _
    · intro k hk
      rw [hst]
      exact addTrade_lookup_other _ _ _ _ hk
    · intro hnone
      rw [hst]
      refine addTrade_keys_new _ _ _ ?_
      rw [← lookup_isSome_iff_mem_keys]
      simp [hnone]
    · intro hsome
      rw [hst]
      exact addTrade_keys_mem _ _ _ (lookup_isSome_iff_mem_keys.mp hsome)
  · intro e h
    unfold runRecord
    rw [h]

/-- Witness for C9: recording POP's first trade creates its one-element list
and leaves GIN's (absent) list unchanged; an invalid order string leaves the
store as it was. -/
theorem record_trade_frame_witness :
    mkt1.trades.lookup "POP" =
      some ((((StockMarket.mk []).trades.lookup "POP").getD []) ++ [td0]) ∧
    mkt1.trades.lookup "GIN" = (StockMarket.mk []).trades.lookup "GIN" ∧
    runRecord 1000 mkt1 "POP" (.num 1) (.num 1) "Oops" = mkt1 := by
  have h := record_trade_frame 1000 ⟨[]⟩ "POP" (.num 10) (.num 100) "Buy"
  have hok : record_trade 1000 ⟨[]⟩ "POP" (.num 10) (.num 100) "Buy" =
      .ok (td0, mkt1) := by decide
  have h1 := h.1 td0 mkt1 hok
  have h2 := record_trade_frame 1000 mkt1 "POP" (.num 1) (.num 1) "Oops"
  have herr : record_trade 1000 mkt1 "POP" (.num 1) (.num 1) "Oops" =
      .error .invalidOrder := by decide
  exact ⟨h1.1, h1.2.1 "GIN" (by decide), h2.2 .invalidOrder herr⟩

/-- C10: the empty initial store satisfies the invariant that every stored
symbol owns a non-empty trade list, a successful `record_trade` preserves it,
and under it a key is present exactly when the symbol has at least one
recorded trade. -/
theorem trades_wf_invariant :
    TradesWF ⟨[]⟩ ∧
    (∀ now s sym q p o td s2, TradesWF s →
      record_trade now s sym q p o = .ok (td, s2) → TradesWF s2) ∧
    (∀ s sym, TradesWF s →
      ((s.trades.lookup sym).isSome ↔
        ∃ ts, s.trades.lookup sym = some ts ∧ ts ≠ [])) := by
  refine ⟨?_, ?_, ?_⟩
  · intro kv hkv
    simp at hkv
  · intro now s sym q p o td s2 hwf h
    have hst := record_trade_ok_inv h
    intro kv hkv
    rw [hst] at hkv
    exact addTrade_wf s.trades sym td hwf kv hkv
  · intro s sym hwf
    constructor
    · intro hsome
      obtain ⟨ts, hts⟩ := Option.isSome_iff_exists.mp hsome
      exact ⟨ts, hts, hwf (sym, ts) (lookup_mem hts)⟩
    · rintro ⟨ts, hts, -⟩
      simp [hts]

/-- Witness for C10: the invariant holds for the store reached by recording
one trade from the empty store. -/
theorem trades_wf_invariant_witness : TradesWF mkt1 := by
  have h := trades_wf_invariant
  exact h.2.1 1000 ⟨[]⟩ "POP" (.num 10) (.num 100) "Buy" td0 mkt1 h.1 (by decide)

end Claims

end StockMkt
